import Mathlib

/-!
Verification development for the customer-churn prediction repository.

The serving side (`backend/app/ml_service.py`, class `ChurnPredictor`) and the
training script (`ml/train_model.py`) are embedded shallowly:

* pandas cell values are modelled by `Val` (a string or a number); a missing
  cell / NaN is `Option.none`;
* a single input row (a JSON dict) is an association list `Row`;
* numbers are modelled by `ℚ` (every IEEE float is a rational, and all
  constants appearing in the code are decimal); real-valued quantities that
  involve `sqrt` (the confidence interval) are modelled over `ℝ`;
* raising an exception is modelled by `Except`.
-/

/-- A pandas / JSON cell value: a string or a number.  Python floats are
rationals, so numbers are modelled by `ℚ`. -/
inductive Val where
  | str (s : String)
  | num (q : ℚ)
deriving DecidableEq, Repr

/-- A single input row (`input_data : Dict[str, Any]`), as an association
list from column name to value.  A key that is absent models a missing
feature. -/
abbrev Row := List (String × Val)

/-- Association-list lookup: the first entry with the given key (how a
column name selects a column, an encoder, an entry of a dict). -/
def lookupAL {β : Type} : List (String × β) → String → Option β
  | [], _ => none
  | (k, v) :: t, c => if k = c then some v else lookupAL t c

/-- Models `df[col]` for a one-row frame. -/
def lookupRow (r : Row) (c : String) : Option Val := lookupAL r c

/-- Models `df[col] = v`: replace the value stored under key `c` (keys that are
absent stay absent, matching column assignment on an existing column). -/
def setCol (r : Row) (c : String) (v : Val) : Row :=
  r.map (fun p => if p.1 = c then (c, v) else p)

/-- Index of the first occurrence of `a` in `l` (`list.index` /
`encoder.transform` on a fitted `LabelEncoder`, whose `classes_` are the
vocabulary). `none` models "not in the vocabulary". -/
def idxOf? {α : Type} [DecidableEq α] (a : α) : List α → Option ℕ
  | [] => none
  | b :: l => if b = a then some 0 else (idxOf? a l).map (· + 1)

/-- Digit accumulator for the decimal grammar below. -/
def natOfDigits (cs : List Char) : ℕ :=
  cs.foldl (fun a c => a * 10 + (c.toNat - 48)) 0

/-- Parse an unsigned decimal literal `digits[.digits]` (at least one digit).
This models the common fragment of Python `float()` / `numpy` string-to-float
conversion used by `astype(float)` and `pd.to_numeric`; exotic forms
(exponents, `inf`, `nan`) are outside the fragment exercised here and are
treated as unparsable. -/
def parseUnsigned (cs : List Char) : Option ℚ :=
  let ip := cs.takeWhile Char.isDigit
  let rest := cs.dropWhile Char.isDigit
  match rest with
  | [] => if ip.isEmpty then none else some (natOfDigits ip)
  | '.' :: frac =>
      if frac.all Char.isDigit && !(ip.isEmpty && frac.isEmpty) then
        some ((natOfDigits ip : ℚ) + (natOfDigits frac : ℚ) / (10 ^ frac.length : ℕ))
      else none
  | _ => none

/-- Python `float(s)` on a string: optional surrounding whitespace, optional
sign, decimal literal. -/
def parsePyFloat (s : String) : Option ℚ :=
  match s.trim.toList with
  | '-' :: t => (parseUnsigned t).map (fun q => -q)
  | '+' :: t => parseUnsigned t
  | t => parseUnsigned t

/-- Models `astype(float)` / `pd.to_numeric` on one cell. -/
def valToFloat : Val → Option ℚ
  | .num q => some q
  | .str s => parsePyFloat s

/-- Python `str(x)`.  Faithful on strings and on integer-valued numbers
(`str(3) = "3"`); non-integer rationals get a placeholder rendering that is
never evaluated by the theorems below. -/
def strOfVal : Val → String
  | .str s => s
  | .num q => if q.den = 1 then toString q.num else toString q.num ++ "/" ++ toString q.den

/-- The serving-side model bundle held by `ChurnPredictor` after
`load_models`: the dynamic configuration read from `metadata.json` plus the
deserialized encoders and scaler.

* `label_encoders`: per categorical column, the fitted vocabulary
  `encoder.classes_` (a list of strings, since training fits encoders on
  `astype(str)` values); `none` models `self.label_encoders is None`.
* `scaler`: per numerical column (in `numerical_cols` order, the order the
  `StandardScaler` was fitted on), the stored `(mean, scale)`; `none` models
  `self.scaler is None`. -/
structure Bundle where
  feature_cols : List String
  categorical_cols : List String
  numerical_cols : List String
  label_encoders : Option (List (String × List String))
  scaler : Option (List (ℚ × ℚ))
  model_loaded : Bool
deriving DecidableEq, Repr

/-- Models `col in self.label_encoders` / `self.label_encoders[col]`. -/
def lookupEnc (encs : List (String × List String)) (c : String) : Option (List String) :=
  lookupAL encs c

/-- Exceptions raised by the serving feature pipeline. -/
inductive PrepError where
  | notLoaded   -- ModelNotLoadedError
  | valueError  -- ValueError from astype(float)
  | scalerError -- ValueError from scaler.transform (feature-count mismatch)
deriving DecidableEq, Repr

deriving instance DecidableEq for Except

/-- The encoding that `prepare_features` applies to one categorical value (ml_service.py
lines 146-154): `value in encoder.classes_` is a plain membership test of the
raw value against the string vocabulary (a number never equals a string), on
hit `encoder.transform([value])` yields the index, on miss the column is set
to `0` with a warning. -/
def encodeCatSingle (classes : List String) : Val → ℚ
  | .str s => ((idxOf? s classes).map (fun n => (n : ℚ))).getD 0
  | .num _ => 0

/-- The encoding that `batch_prepare_features` applies to one categorical value
(ml_service.py lines 202-209): `X[col].astype(str).map(mapping).fillna(0)` —
the value is first converted to a string and then looked up in
`{label: idx}`; unseen strings become `0`. -/
def encodeCatBatch (classes : List String) (v : Val) : ℚ :=
  ((idxOf? (strOfVal v) classes).map (fun n => (n : ℚ))).getD 0

/-- One iteration of the categorical-encoding loop: if the column is present
in the frame and has a fitted encoder, overwrite it with the encoded value
(`g` is the per-value encoding used by the respective path). -/
def encStep (g : List String → Val → ℚ) (encs : List (String × List String))
    (r : Row) (col : String) : Row :=
  match lookupRow r col, lookupEnc encs col with
  | some v, some classes => setCol r col (.num (g classes v))
  | _, _ => r

/-- The categorical-encoding loop `for col in self.categorical_cols: ...`. -/
def applyEnc (g : List String → Val → ℚ) (encs : List (String × List String))
    (cats : List String) (row : Row) : Row :=
  cats.foldl (encStep g encs) row

/-- Models `scaler.transform` on a selection of columns: sklearn applies the fitted
`(mean, scale)` pairs positionally and raises when the number of supplied
columns differs from the number of fitted features. -/
def transformSel (params : List (ℚ × ℚ)) (sel : List ℚ) : Option (List ℚ) :=
  if sel.length = params.length then
    some ((sel.zip params).map (fun p => (p.1 - p.2.1) / p.2.2))
  else none

/-- Models `[i for i, f in enumerate(self.feature_cols) if f in self.numerical_cols]`. -/
def numIndices (b : Bundle) : List ℕ :=
  (List.range b.feature_cols.length).filter
    (fun i => match b.feature_cols[i]? with
      | some f => b.numerical_cols.contains f
      | none => false)

/-- NumPy fancy assignment `arr[:, idxs] = M`: position `i` receives the
`k`-th transformed value when `i` is the `k`-th entry of `idxs`, other
positions are unchanged.  `i` is the position of the head of the remaining
list. -/
def scatterSel (idxs : List ℕ) (ys : List ℚ) : List ℚ → ℕ → List ℚ
  | [], _ => []
  | x :: xs, i =>
      (match idxOf? i idxs with
        | some k => ys.getD k x
        | none => x) :: scatterSel idxs ys xs (i + 1)

/-- The set of numerical columns the batch path scales:
`valid_num_cols = [c for c in self.numerical_cols if c in X.columns]`
(ml_service.py line 227). -/
def validNumCols (b : Bundle) (X : List (String × ℚ)) : List String :=
  b.numerical_cols.filter (fun c => (X.map Prod.fst).contains c)

/-- Scaling step of `prepare_features` (ml_service.py lines 170-174):
`features_array[:, num_indices] = scaler.transform(features_array[:, num_indices])`
guarded by `scaler is not None`, `len(numerical_cols) > 0` and
`num_indices` non-empty. -/
def scaleSingle (b : Bundle) (xs : List ℚ) : Option (List ℚ) :=
  match b.scaler with
  | none => some xs
  | some params =>
    if b.numerical_cols.isEmpty then some xs
    else if (numIndices b).isEmpty then some xs
    else
      match transformSel params ((numIndices b).map (fun i => xs.getD i 0)) with
      | some ys => some (scatterSel (numIndices b) ys xs 0)
      | none => none

/-- The one-row frame after the categorical-encoding loop of `prepare_features`
(ml_service.py lines 139-154): the raw input row, with every categorical
column that is present and has a fitted encoder replaced in place; skipped
entirely when `self.label_encoders` is `None`. -/
def singleDF (b : Bundle) (row : Row) : Row :=
  match b.label_encoders with
  | some encs => applyEnc encodeCatSingle encs b.categorical_cols row
  | none => row

/-- Models `ChurnPredictor.prepare_features` (ml_service.py lines 129-176): build a
one-row frame from the input dict, encode categorical columns in place,
assemble the feature frame in `feature_cols` order with `0` for missing
features, convert to float, then scale the numerical positions. -/
def prepare_features (b : Bundle) (row : Row) : Except PrepError (List ℚ) :=
  if b.model_loaded then
    match (b.feature_cols.map
        (fun f => (lookupRow (singleDF b row) f).getD (.num 0))).mapM valToFloat with
    | none => .error .valueError
    | some xs =>
      match scaleSingle b xs with
      | some ys => .ok ys
      | none => .error .scalerError
  else .error .notLoaded

/-- Scaling step of `batch_prepare_features` (ml_service.py lines 225-229):
`X[valid_num_cols] = scaler.transform(X[valid_num_cols])` — selection and
write-back are by column name, parameters are applied positionally. -/
def scaleBatchCols (b : Bundle) (X : List (String × ℚ)) : Option (List (String × ℚ)) :=
  match b.scaler with
  | none => some X
  | some params =>
    if b.numerical_cols.isEmpty then some X
    else if (validNumCols b X).isEmpty then some X
    else
      match transformSel params
          ((validNumCols b X).map (fun c => (lookupAL X c).getD 0)) with
      | some ys =>
        some (X.map (fun p =>
          match idxOf? p.1 (validNumCols b X) with
          | some k => (p.1, ys.getD k p.2)
          | none => p))
      | none => none

/-- The frame `X` of `batch_prepare_features` after steps 1-2
(ml_service.py lines 188-209): all feature columns initialised from the
input (missing → `0`), then the categorical columns encoded via
`astype(str).map(mapping).fillna(0)`. -/
def batchX (b : Bundle) (row : Row) : Row :=
  match b.label_encoders with
  | some encs => applyEnc encodeCatBatch encs b.categorical_cols
      (b.feature_cols.map (fun c => (c, (lookupRow row c).getD (.num 0))))
  | none => b.feature_cols.map (fun c => (c, (lookupRow row c).getD (.num 0)))

/-- Models `ChurnPredictor.batch_prepare_features` (ml_service.py lines 178-231) on
a one-row DataFrame (every operation in the Python body is elementwise or
rowwise, so the one-row behaviour is captured exactly): initialise all
feature columns (missing → `0`), encode categorical columns via
`astype(str).map(mapping).fillna(0)`, convert to float, scale the numerical
columns by name. -/
def batch_prepare_features (b : Bundle) (row : Row) : Except PrepError (List ℚ) :=
  if b.model_loaded then
    match ((batchX b row).map Prod.snd).mapM valToFloat with
    | none => .error .valueError
    | some xs =>
      match scaleBatchCols b (((batchX b row).map Prod.fst).zip xs) with
      | some X2 => .ok (X2.map Prod.snd)
      | none => .error .scalerError
  else .error .notLoaded

/-- Models `RISK_THRESHOLDS["high"]` (config.py). -/
def RISK_THRESHOLDS_high : ℚ := 7/10

/-- Models `RISK_THRESHOLDS["medium"]` (config.py). -/
def RISK_THRESHOLDS_medium : ℚ := 3/10

/-- Models `ChurnPredictor._get_risk_level` (ml_service.py lines 313-320). -/
def riskLevel (p : ℚ) : String :=
  if RISK_THRESHOLDS_high ≤ p then "high"
  else if RISK_THRESHOLDS_medium ≤ p then "medium"
  else "low"

/-- Round-half-to-even to the nearest integer, the rounding used by Python's
built-in `round`.  Generic over the field so that it serves both the exact
(`ℚ`) and the real-valued (`ℝ`) parts of the development. -/
def roundHE {α : Type} [LinearOrderedField α] [FloorRing α]
    [∀ a b : α, Decidable (a < b)] (x : α) : ℤ :=
  if x - (⌊x⌋ : α) < 1/2 then ⌊x⌋
  else if 1/2 < x - (⌊x⌋ : α) then ⌊x⌋ + 1
  else if ⌊x⌋ % 2 = 0 then ⌊x⌋ else ⌊x⌋ + 1

/-- Python `round(x, 4)` over exact rationals. -/
def round4Q (x : ℚ) : ℚ := (roundHE (x * 10000) : ℚ) / 10000

/-- Python `round(x, 6)` over exact rationals. -/
def round6Q (x : ℚ) : ℚ := (roundHE (x * 1000000) : ℚ) / 1000000

/-- Python `round(x, 4)` idealized over the reals (used for the
`sqrt`-valued confidence bounds). -/
noncomputable def round4R (x : ℝ) : ℝ := (roundHE (x * 10000) : ℝ) / 10000

/-- Models `std_error = np.sqrt(probability * (1 - probability) / 100)`
(ml_service.py line 324). -/
noncomputable def stdError (p : ℝ) : ℝ := Real.sqrt (p * (1 - p) / 100)

/-- Lower confidence bound `max(0, probability - 1.96 * std_error)`
(ml_service.py line 327), before the final rounding to 4 decimals. -/
noncomputable def ciLower (p : ℝ) : ℝ := max 0 (p - 1.96 * stdError p)

/-- Upper confidence bound `min(1, probability + 1.96 * std_error)`
(ml_service.py line 328), before the final rounding to 4 decimals. -/
noncomputable def ciUpper (p : ℝ) : ℝ := min 1 (p + 1.96 * stdError p)

/-- The probability/risk part of a `PredictionResult` dict.  The confidence
interval reported next to it is `(round4R (ciLower p), round4R (ciUpper p))`
and the recommendation is a pure string lookup; neither feeds back into the
fields below. -/
structure PredOut where
  churn_probability : ℚ
  risk_level : String
deriving DecidableEq, Repr

/-- Models `ChurnPredictor.predict` (ml_service.py lines 234-254).  The XGBoost
classifier is opaque; its positive-class output on the prepared feature
vector is the parameter `proba`. -/
def predict (b : Bundle) (proba : List ℚ → ℚ) (row : Row) : Except PrepError PredOut :=
  if b.model_loaded then
    match prepare_features b row with
    | .error e => .error e
    | .ok xs => .ok { churn_probability := round4Q (proba xs), risk_level := riskLevel (proba xs) }
  else .error .notLoaded

/-- Stable insertion of an entry into a list that is sorted by weight in
descending order: the new entry goes before the first entry of smaller or
equal weight, so that entries with equal weights keep their original
relative order — exactly the result of Python's stable
`sorted(key=lambda x: x[1], reverse=True)`. -/
def insertDesc (x : String × ℚ) : List (String × ℚ) → List (String × ℚ)
  | [] => [x]
  | y :: ys => if y.2 ≤ x.2 then x :: y :: ys else y :: insertDesc x ys

/-- Stable sort by weight, descending (`sorted(items, key=lambda x: x[1],
reverse=True)`). -/
def sortDescBy : List (String × ℚ) → List (String × ℚ)
  | [] => []
  | x :: xs => insertDesc x (sortDescBy xs)

/-- The part of `metadata.json` read by `get_feature_importance`. -/
structure MetaJson where
  feature_importance : Option (List (String × ℚ))
deriving DecidableEq, Repr

/-- Predictor state for `get_feature_importance`: the loaded metadata (or
`None`) and, for the fallback branch, the classifier's
`feature_importances_` attribute when it exists. -/
structure FIState where
  bundle : Bundle
  metadata : Option MetaJson
  model_importances : Option (List ℚ)
deriving DecidableEq, Repr

/-- The fallback branch of `get_feature_importance` (ml_service.py lines
393-407): raise `ModelNotLoadedError` when no model is loaded, otherwise use
`model.feature_importances_` when the attribute exists, otherwise `[]`. -/
def getFIFallback (st : FIState) : Except PrepError (List (String × ℚ)) :=
  if st.bundle.model_loaded then
    match st.model_importances with
    | some imps =>
        .ok ((sortDescBy (st.bundle.feature_cols.zip imps)).map (fun p => (p.1, round6Q p.2)))
    | none => .ok []
  else .error .notLoaded

/-- Models `ChurnPredictor.get_feature_importance` (ml_service.py lines 381-407):
when the loaded metadata holds a `feature_importance` dict (making the dict
truthy), return its entries sorted by importance descending with values
rounded to 6 decimals, before any `model_loaded` check. -/
def get_feature_importance (st : FIState) : Except PrepError (List (String × ℚ)) :=
  match st.metadata with
  | some md =>
    match md.feature_importance with
    | some fi => .ok ((sortDescBy fi).map (fun p => (p.1, round6Q p.2)))
    | none => getFIFallback st
  | none => getFIFallback st

/-! ## Training script (`ml/train_model.py`) -/

/-- A pandas column: one optional cell per row (`none` is NaN). -/
abbrev Col := List (Option Val)

/-- A loaded DataFrame: ordered columns of equal length. -/
abbrev DF := List (String × Col)

def columnsDF (df : DF) : List String := df.map Prod.fst

def colVals (df : DF) (c : String) : Col := (lookupAL df c).getD []

/-- Models `len(df)`. -/
def nrowsDF (df : DF) : ℕ := ((df.head?).map (fun p => p.2.length)).getD 0

/-- Models `df[col].nunique()` — distinct non-null values. -/
def nunique (col : Col) : ℕ := (col.filterMap id).dedup.length

/-- Models `target_candidates` (train_model.py line 91). -/
def target_candidates : List String :=
  ["Churn", "Exited", "churn", "Target", "Status", "churned"]

/-- Models `id_candidates` (train_model.py line 104). -/
def id_candidates : List String :=
  ["customerID", "CustomerId", "customer_id", "id", "RowNumber"]

/-- Target detection inside `detect_schema` (train_model.py lines 90-101):
first candidate alias present in the columns; otherwise the last column when
it has at most 5 distinct values; otherwise `ValueError` (the `SchemaError`
of the design).  `df.columns[-1]` on a frame with no columns raises an
`IndexError` instead. -/
def detectTarget (df : DF) : Except String String :=
  match target_candidates.find? (fun c => (columnsDF df).contains c) with
  | some c => .ok c
  | none =>
    match (columnsDF df).getLast? with
    | some lastc =>
        if nunique (colVals df lastc) ≤ 5 then .ok lastc else .error "SchemaError"
    | none => .error "IndexError"

/-- ID detection inside `detect_schema` (train_model.py lines 103-110):
first candidate alias present, otherwise synthesize a sequential string
`ROW_ID` column appended to the frame (never an error). -/
def detectId (df : DF) : DF × String :=
  match id_candidates.find? (fun c => (columnsDF df).contains c) with
  | some c => (df, c)
  | none =>
      (df ++ [("ROW_ID", (List.range (nrowsDF df)).map (fun i => some (.str (toString i))))],
       "ROW_ID")

/-- Models `pd.to_numeric(x, errors="coerce")` on one cell. -/
def toNumericCell (o : Option Val) : Option ℚ := o.bind valToFloat

/-- Models `pd.to_numeric(df[col], errors="coerce").notna().sum() / len(df) > 0.8`
(train_model.py lines 129-132).  For an empty frame the Python expression is
`np.int64(0)/0 = nan`, and `nan > 0.8` is `False`; the rational `0/0 = 0`
gives the same verdict. -/
def isNumericCol (col : Col) (n : ℕ) : Bool :=
  decide ((col.countP (fun o => (toNumericCell o).isSome) : ℚ) / (n : ℚ) > 8/10)

/-- Ascending insertion into a sorted string list. -/
def insertAsc (x : String) : List String → List String
  | [] => [x]
  | y :: ys => if x ≤ y then x :: y :: ys else y :: insertAsc x ys

/-- Models `np.unique` over strings: the sorted deduplicated values —
`LabelEncoder.fit` stores exactly this as `classes_`. -/
def sortAscDedup (l : List String) : List String :=
  l.dedup.foldr insertAsc []

/-- Models `LabelEncoder().fit_transform(df[col].fillna("Unknown").astype(str))`
(train_model.py lines 153-157): returns the fitted vocabulary and the
encoded column. -/
def fitEncodeCol (col : Col) : List String × List ℚ :=
  let vals := col.map (fun o => match o with | none => "Unknown" | some v => strOfVal v)
  let classes := sortAscDedup vals
  (classes, vals.map (fun s => ((idxOf? s classes).map (fun n => (n : ℚ))).getD 0))

/-- Target preparation (train_model.py lines 166-170): keep a numeric 0/1
column as is, otherwise map truthy strings to 1. -/
def prepTarget (col : Col) : List ℚ :=
  if col.all (fun o => match o with
      | some (.num q) => decide (q = 0 ∨ q = 1)
      | _ => false) then
    col.map (fun o => match o with | some (.num q) => q | _ => 0)
  else
    col.map (fun o => match o with
      | none => 0
      | some v =>
          if ["yes", "1", "true", "churned", "exited"].contains ((strOfVal v).toLower)
          then 1 else 0)

def meanQ (l : List ℚ) : ℚ := l.sum / (l.length : ℚ)

def varQ (l : List ℚ) : ℚ := (l.map (fun x => (x - meanQ l) ^ 2)).sum / (l.length : ℚ)

/-- Everything `prepare_features` (train_model.py lines 115-180) produces.
The `StandardScaler` divides by `sqrt(variance)`; the fitted statistics are
recorded here as `(mean, variance)` and the design matrix pre-scaling, since
no claim depends on the irrational scaled values. -/
structure TrainArts where
  target_col : String
  customer_id_col : String
  numerical_cols : List String
  categorical_cols : List String
  encoders : List (String × List String)
  X : List (String × List ℚ)
  y : List ℚ
  scaler_stats : List (String × ℚ × ℚ)
deriving DecidableEq, Repr

/-- Models `prepare_features` of the training script (train_model.py lines
115-180): classify every non-target, non-id column by numeric ratio, encode
categoricals, coerce numericals (`invalid → 0`), prepare the target and the
scaler statistics.  Total: no branch of this function raises. -/
def prepareTrainFeatures (df : DF) (t idc : String) : TrainArts :=
  let n := nrowsDF df
  let feats := (columnsDF df).filter (fun c => c ≠ t && c ≠ idc)
  let nums := feats.filter (fun c => isNumericCol (colVals df c) n)
  let cats := feats.filter (fun c => !isNumericCol (colVals df c) n)
  let encPairs := cats.map (fun c => (c, fitEncodeCol (colVals df c)))
  let Xnum := nums.map (fun c => (c, (colVals df c).map (fun o => (toNumericCell o).getD 0)))
  { target_col := t
    customer_id_col := idc
    numerical_cols := nums
    categorical_cols := cats
    encoders := encPairs.map (fun p => (p.1, p.2.1))
    X := encPairs.map (fun p => (p.1, p.2.2)) ++ Xnum
    y := prepTarget (colVals df t)
    scaler_stats := if nums.isEmpty then [] else Xnum.map (fun p => (p.1, meanQ p.2, varQ p.2)) }

/-- The repository-level part of the training entry point `main`
(train_model.py lines 327-331) up to the hand-off to the libraries:
`detect_schema` then `prepare_features`.  The script defines no
`TrainingError` and performs no row-count, class-count or matrix-shape
check of its own. -/
def trainPipeline (df : DF) : Except String TrainArts :=
  match detectTarget df with
  | .error e => .error e
  | .ok t =>
    let p := detectId df
    .ok (prepareTrainFeatures p.1 t p.2)

def isOkE {ε α : Type} : Except ε α → Bool
  | .ok _ => true
  | .error _ => false

/-! ## Excel sheet selection and the upload route -/

/-- What sheet selection looks at: the (stripped) column names and the row
count of one Excel sheet. -/
structure Sheet where
  cols : List String
  nrows : ℕ
deriving DecidableEq, Repr

/-- Models `metadata_keywords` (train_model.py lines 41-42). -/
def metadata_keywords : List String :=
  ["Data", "Variable", "Description", "Discerption",
   "Column_name", "Column_type", "Data_type", "Type", "Format"]

/-- Models `set(temp_df.columns).intersection(metadata_keywords)` is non-empty. -/
def sheetHasMetaCols (s : Sheet) : Bool :=
  s.cols.any (fun c => metadata_keywords.contains c)

/-- The sheet loop shared by `load_data` (train_model.py lines 44-53) and
the upload route (predictions.py lines 355-364): the first sheet whose
columns avoid the documentation keywords and which has at least 10 rows. -/
def pickDataSheet (sheets : List Sheet) : Option Sheet :=
  sheets.find? (fun s => !sheetHasMetaCols s && decide (10 ≤ s.nrows))

/-- Models `load_data` on an Excel file (train_model.py lines 38-63): when no sheet
qualifies, fall back to the first sheet (`pd.read_excel(file_path)`) with a
warning — no exception. -/
def load_data_excel (sheets : List Sheet) : Except String Sheet :=
  match pickDataSheet sheets with
  | some s => .ok s
  | none =>
    match sheets.head? with
    | some s => .ok s
    | none => .error "NoSheets"

/-- The post-training re-read in the upload route (predictions.py lines
350-366): same selection, but `ValueError` when no sheet qualifies. -/
def uploadReadExcel (sheets : List Sheet) : Except String Sheet :=
  match pickDataSheet sheets with
  | some s => .ok s
  | none => .error "ValueError"

/-- One entry of `upload_history.json` (the fields the dedup logic reads and
writes; the remaining fields are summary statistics). -/
structure LedgerEntry where
  timestamp : String
  file_hash : String
  is_duplicate : Bool
  original_upload : Option String
deriving DecidableEq, Repr

/-- Outcome of one `upload-csv` request on the success path. -/
structure UploadOutcome where
  log_message : String
  training_run : Bool
  record : LedgerEntry
  new_history : List LedgerEntry
deriving DecidableEq, Repr

/-- The duplicate scan (predictions.py lines 283-296): first history entry
with the same content hash. -/
def findDup (history : List LedgerEntry) (h : String) : Option LedgerEntry :=
  history.find? (fun e => e.file_hash = h)

/-- The dedup/retrain/ledger flow of `upload_csv_for_predictions`
(predictions.py lines 270-334 and 568-602): compute `is_duplicate` from the
history, branch only on the log message, invoke the training subprocess
unconditionally, and append the ledger record (history capped at the most
recent 50 entries). -/
def upload_csv_flow (history : List LedgerEntry) (fileHash now : String) : UploadOutcome :=
  let dup := findDup history fileHash
  let isDup := dup.isSome
  let msg := if isDup then
      "Note: Duplicate file detected (same as previous upload), but retraining anyway to apply latest model settings."
    else "New dataset detected. Retraining model..."
  -- subprocess.run([sys.executable, "ml/train_model.py", file_path], check=True)
  -- is executed here on every request, before the record is written.
  let entry : LedgerEntry :=
    { timestamp := now, file_hash := fileHash, is_duplicate := isDup,
      original_upload := dup.map (fun e => e.timestamp) }
  { log_message := msg
    training_run := true
    record := entry
    new_history := (history ++ [entry]).drop ((history.length + 1) - 50) }

/-! ## General lemmas about the building blocks -/

theorem lookupAL_map_self {β : Type} (F : String → β) (ks : List String) (f : String)
    (h : f ∈ ks) : lookupAL (ks.map (fun k => (k, F k))) f = some (F f) := by
  induction ks with
  | nil => cases h
  | cons k t ih =>
    simp only [List.map_cons, lookupAL]
    by_cases hk : k = f
    · subst hk; simp
    · rw [if_neg hk]
      refine ih ?_
      rcases List.mem_cons.mp h with h1 | h1
      · exact absurd h1.symm hk
      · exact h1

theorem lookupAL_map_not_mem {β : Type} (F : String → β) (ks : List String) (f : String)
    (h : f ∉ ks) : lookupAL (ks.map (fun k => (k, F k))) f = none := by
  induction ks with
  | nil => rfl
  | cons k t ih =>
    simp only [List.map_cons, lookupAL]
    have hk : k ≠ f := fun e => h (by rw [← e]; exact List.mem_cons_self k t)
    rw [if_neg hk]
    exact ih (fun hf => h (List.mem_cons_of_mem _ hf))

theorem lookupAL_setCol (r : Row) (c : String) (v : Val) (f : String) :
    lookupAL (setCol r c v) f =
      if c = f then (lookupAL r f).map (fun _ => v) else lookupAL r f := by
  induction r with
  | nil => simp [setCol, lookupAL]
  | cons p t ih =>
    obtain ⟨k, w⟩ := p
    have hsc : setCol ((k, w) :: t) c v
        = (if k = c then (c, v) else (k, w)) :: setCol t c v := rfl
    rw [hsc]
    by_cases hk : k = c
    · rw [if_pos hk]
      by_cases hf : c = f
      · subst hf; subst hk
        simp [lookupAL]
      · simp only [lookupAL, if_neg hf]
        rw [ih, if_neg hf, if_neg (hk ▸ hf)]
    · rw [if_neg hk]
      by_cases hf : c = f
      · subst hf
        have hkf : k ≠ c := hk
        simp only [lookupAL, if_neg hkf]
        rw [ih]
        simp
      · simp only [lookupAL]
        by_cases hkf : k = f
        · rw [if_pos hkf, if_pos hkf, if_neg hf]
        · rw [if_neg hkf, if_neg hkf, ih, if_neg hf]

/-- The value the encoding loop leaves at one column: encoded when the
column is present and has a fitted encoder, untouched otherwise. -/
def encOnce (g : List String → Val → ℚ) (encs : List (String × List String))
    (r : Row) (f : String) : Option Val :=
  match lookupAL r f, lookupEnc encs f with
  | some v, some classes => some (.num (g classes v))
  | o, _ => o

theorem lookupAL_encStep_ne (g : List String → Val → ℚ) (encs : List (String × List String))
    (r : Row) (col f : String) (h : col ≠ f) :
    lookupAL (encStep g encs r col) f = lookupAL r f := by
  unfold encStep lookupRow
  cases hv : lookupAL r col <;> cases he : lookupEnc encs col <;>
    simp [lookupAL_setCol, if_neg h]

theorem lookupAL_encStep_self (g : List String → Val → ℚ) (encs : List (String × List String))
    (r : Row) (col : String) :
    lookupAL (encStep g encs r col) col = encOnce g encs r col := by
  unfold encStep encOnce lookupRow
  cases hv : lookupAL r col <;> cases he : lookupEnc encs col <;>
    simp [lookupAL_setCol, hv]

theorem encOnce_congr (g : List String → Val → ℚ) (encs : List (String × List String))
    (r₁ r₂ : Row) (f : String) (h : lookupAL r₁ f = lookupAL r₂ f) :
    encOnce g encs r₁ f = encOnce g encs r₂ f := by
  unfold encOnce
  rw [h]

theorem applyEnc_lookup_not_mem (g : List String → Val → ℚ)
    (encs : List (String × List String)) (cats : List String) (r : Row) (f : String)
    (h : f ∉ cats) : lookupAL (applyEnc g encs cats r) f = lookupAL r f := by
  induction cats generalizing r with
  | nil => rfl
  | cons c t ih =>
    have hc : c ≠ f := fun e => h (by rw [← e]; exact List.mem_cons_self c t)
    simp only [applyEnc, List.foldl_cons]
    rw [show List.foldl (encStep g encs) (encStep g encs r c) t
        = applyEnc g encs t (encStep g encs r c) from rfl,
      ih _ (fun hf => h (List.mem_cons_of_mem _ hf)),
      lookupAL_encStep_ne _ _ _ _ _ hc]

theorem applyEnc_lookup_mem (g : List String → Val → ℚ)
    (encs : List (String × List String)) (cats : List String) (r : Row) (f : String)
    (hnd : cats.Nodup) (h : f ∈ cats) :
    lookupAL (applyEnc g encs cats r) f = encOnce g encs r f := by
  induction cats generalizing r with
  | nil => cases h
  | cons c t ih =>
    obtain ⟨hct, hnt⟩ := List.nodup_cons.mp hnd
    simp only [applyEnc, List.foldl_cons]
    rw [show List.foldl (encStep g encs) (encStep g encs r c) t
        = applyEnc g encs t (encStep g encs r c) from rfl]
    rcases List.mem_cons.mp h with rfl | hf
    · rw [applyEnc_lookup_not_mem _ _ _ _ _ hct, lookupAL_encStep_self]
    · have hcf : c ≠ f := fun e => hct (e ▸ hf)
      rw [ih _ hnt hf]
      exact encOnce_congr _ _ _ _ _ (lookupAL_encStep_ne _ _ _ _ _ hcf)

theorem keys_setCol (r : Row) (c : String) (v : Val) :
    (setCol r c v).map Prod.fst = r.map Prod.fst := by
  unfold setCol
  rw [List.map_map]
  refine List.map_congr_left (fun p _ => ?_)
  by_cases h : p.1 = c <;> simp [h]

theorem keys_encStep (g : List String → Val → ℚ) (encs : List (String × List String))
    (r : Row) (col : String) :
    (encStep g encs r col).map Prod.fst = r.map Prod.fst := by
  unfold encStep lookupRow
  cases hv : lookupAL r col <;> cases he : lookupEnc encs col <;>
    simp [keys_setCol]

theorem keys_applyEnc (g : List String → Val → ℚ) (encs : List (String × List String))
    (cats : List String) (r : Row) :
    (applyEnc g encs cats r).map Prod.fst = r.map Prod.fst := by
  induction cats generalizing r with
  | nil => rfl
  | cons c t ih =>
    simp only [applyEnc, List.foldl_cons]
    rw [show List.foldl (encStep g encs) (encStep g encs r c) t
        = applyEnc g encs t (encStep g encs r c) from rfl,
      ih (encStep g encs r c), keys_encStep]

theorem map_snd_eq_keys_map (r : Row) (hnd : (r.map Prod.fst).Nodup) :
    r.map Prod.snd = (r.map Prod.fst).map (fun k => (lookupAL r k).getD (Val.num 0)) := by
  induction r with
  | nil => rfl
  | cons p t ih =>
    obtain ⟨k, v⟩ := p
    simp only [List.map_cons] at hnd ⊢
    obtain ⟨hk, hnt⟩ := List.nodup_cons.mp hnd
    congr 1
    · simp [lookupAL]
    · rw [ih hnt]
      refine List.map_congr_left (fun k' hk' => ?_)
      have hne : k ≠ k' := fun e => hk (e ▸ hk')
      simp [lookupAL, hne]

theorem mapM_option_none {α β : Type} (f : α → Option β) (l : List α) (a : α)
    (ha : a ∈ l) (hf : f a = none) : l.mapM f = none := by
  induction l with
  | nil => cases ha
  | cons x t ih =>
    rw [List.mapM_cons]
    rcases List.mem_cons.mp ha with rfl | h
    · rw [hf]; rfl
    · cases hx : f x with
      | none => rfl
      | some b => rw [ih h]; rfl

theorem mapM_option_getElem {α β : Type} (f : α → Option β) (l : List α) (bs : List β)
    (h : l.mapM f = some bs) : bs.length = l.length ∧ ∀ i : ℕ, bs[i]? = (l[i]?).bind f := by
  induction l generalizing bs with
  | nil =>
    simp only [List.mapM_nil, Option.pure_def, Option.some.injEq] at h
    subst h
    simp
  | cons x t ih =>
    rw [List.mapM_cons] at h
    cases hx : f x with
    | none => rw [hx] at h; simp at h
    | some b =>
      rw [hx] at h
      cases ht : t.mapM f with
      | none => rw [ht] at h; simp at h
      | some ts =>
        rw [ht] at h
        simp at h
        subst h
        obtain ⟨hlen, hget⟩ := ih ts ht
        refine ⟨by simp [hlen], fun i => ?_⟩
        cases i with
        | zero => simp [hx]
        | succ n => simpa using hget n

theorem mapM_option_isSome {α β : Type} (f : α → Option β) (l : List α)
    (h : ∀ a ∈ l, (f a).isSome) : ∃ bs, l.mapM f = some bs := by
  induction l with
  | nil => exact ⟨[], rfl⟩
  | cons x t ih =>
    obtain ⟨b, hb⟩ := Option.isSome_iff_exists.mp (h x (List.mem_cons_self x t))
    obtain ⟨bs, hbs⟩ := ih (fun a ha => h a (List.mem_cons_of_mem _ ha))
    exact ⟨b :: bs, by rw [List.mapM_cons, hb, hbs]; rfl⟩

theorem idxOf?_eq_none {α : Type} [DecidableEq α] (a : α) (l : List α) (h : a ∉ l) :
    idxOf? a l = none := by
  induction l with
  | nil => rfl
  | cons b t ih =>
    have hb : b ≠ a := fun e => h (by rw [← e]; exact List.mem_cons_self b t)
    rw [idxOf?, if_neg hb, ih (fun ha => h (List.mem_cons_of_mem _ ha))]
    rfl

theorem idxOf?_of_getElem {α : Type} [DecidableEq α] (l : List α) (hnd : l.Nodup) (k : ℕ)
    (a : α) (h : l[k]? = some a) : idxOf? a l = some k := by
  induction l generalizing k with
  | nil => simp at h
  | cons b t ih =>
    obtain ⟨hbt, hnt⟩ := List.nodup_cons.mp hnd
    cases k with
    | zero =>
      simp only [List.getElem?_cons_zero, Option.some.injEq] at h
      subst h
      rw [idxOf?, if_pos rfl]
    | succ n =>
      simp only [List.getElem?_cons_succ] at h
      have hmem : a ∈ t := by
        obtain ⟨hlt, he⟩ := List.getElem?_eq_some.mp h
        exact he ▸ List.getElem_mem hlt
      have hb : b ≠ a := fun e => hbt (e ▸ hmem)
      rw [idxOf?, if_neg hb, ih hnt n h]
      rfl

theorem idxOf?_map_add_range (m : ℕ) : ∀ (n i : ℕ),
    idxOf? i ((List.range m).map (fun j => n + j)) =
      if n ≤ i ∧ i < n + m then some (i - n) else none := by
  induction m with
  | zero =>
    intro n i
    rw [if_neg (by omega)]
    rfl
  | succ m ih =>
    intro n i
    rw [List.range_succ_eq_map, List.map_cons, List.map_map]
    have hcomp : ((fun j => n + j) ∘ Nat.succ) = (fun j => (n + 1) + j) := by
      funext j; simp; omega
    rw [hcomp, idxOf?]
    by_cases hni : n + 0 = i
    · rw [if_pos hni, if_pos (by omega)]
      congr 1
      omega
    · rw [if_neg hni, ih (n + 1) i]
      by_cases h2 : n + 1 ≤ i ∧ i < n + 1 + m
      · rw [if_pos h2, if_pos (by omega)]
        simp only [Option.map_some']
        congr 1
        omega
      · rw [if_neg h2, if_neg (by omega)]
        rfl

theorem scatterSel_getElem? (idxs : List ℕ) (ys : List ℚ) (xs : List ℚ) : ∀ (i j : ℕ),
    (scatterSel idxs ys xs i)[j]? =
      (xs[j]?).map (fun x => match idxOf? (i + j) idxs with
        | some k => ys.getD k x
        | none => x) := by
  induction xs with
  | nil => intro i j; simp [scatterSel]
  | cons x t ih =>
    intro i j
    cases j with
    | zero => simp [scatterSel]
    | succ n =>
      simp only [scatterSel, List.getElem?_cons_succ]
      rw [ih (i + 1) n]
      have : i + 1 + n = i + (n + 1) := by omega
      rw [this]

theorem transformSel_some (params : List (ℚ × ℚ)) (sel ys : List ℚ)
    (h : transformSel params sel = some ys) :
    ys.length = sel.length ∧ sel.length = params.length := by
  unfold transformSel at h
  split_ifs at h with hlen
  · simp only [Option.some.injEq] at h
    subst h
    constructor
    · rw [List.length_map, List.length_zip, hlen, min_self, ← hlen]
    · exact hlen

theorem roundHE_bounds {α : Type} [LinearOrderedField α] [FloorRing α]
    [∀ a b : α, Decidable (a < b)] (x : α) :
    ⌊x⌋ ≤ roundHE x ∧ roundHE x ≤ ⌊x⌋ + 1 := by
  unfold roundHE
  split_ifs <;> omega

theorem roundHE_mono {α : Type} [LinearOrderedField α] [FloorRing α]
    [∀ a b : α, Decidable (a < b)] {x y : α} (h : x ≤ y) : roundHE x ≤ roundHE y := by
  rcases lt_or_le ⌊x⌋ ⌊y⌋ with hf | hf
  · calc roundHE x ≤ ⌊x⌋ + 1 := (roundHE_bounds x).2
      _ ≤ ⌊y⌋ := by omega
      _ ≤ roundHE y := (roundHE_bounds y).1
  · have hxy : ⌊x⌋ = ⌊y⌋ := le_antisymm (Int.floor_le_floor h) hf
    have hr : x - (⌊x⌋ : α) ≤ y - (⌊y⌋ : α) := by
      rw [hxy]
      have := Int.floor_le y
      linarith
    unfold roundHE
    rw [hxy]
    split_ifs <;> first | omega | linarith

theorem round6Q_mono {a b : ℚ} (h : a ≤ b) : round6Q a ≤ round6Q b := by
  unfold round6Q
  have h1 : a * 1000000 ≤ b * 1000000 := by linarith
  have h2 := roundHE_mono (α := ℚ) h1
  have h3 : ((roundHE (a * 1000000) : ℤ) : ℚ) ≤ ((roundHE (b * 1000000) : ℤ) : ℚ) := by
    exact_mod_cast h2
  linarith

theorem round4R_mono {a b : ℝ} (h : a ≤ b) : round4R a ≤ round4R b := by
  unfold round4R
  have h1 : a * 10000 ≤ b * 10000 := by linarith
  have h2 := roundHE_mono (α := ℝ) h1
  have h3 : ((roundHE (a * 10000) : ℤ) : ℝ) ≤ ((roundHE (b * 10000) : ℤ) : ℝ) := by
    exact_mod_cast h2
  linarith

theorem insertDesc_perm (x : String × ℚ) (l : List (String × ℚ)) :
    (insertDesc x l).Perm (x :: l) := by
  induction l with
  | nil => exact List.Perm.refl _
  | cons y ys ih =>
    unfold insertDesc
    split_ifs
    · exact List.Perm.refl _
    · exact List.Perm.trans ((List.perm_cons y).mpr ih) (List.Perm.swap x y ys)

theorem sortDescBy_perm (l : List (String × ℚ)) : (sortDescBy l).Perm l := by
  induction l with
  | nil => exact List.Perm.refl _
  | cons x xs ih =>
    exact List.Perm.trans (insertDesc_perm x (sortDescBy xs)) ((List.perm_cons x).mpr ih)

theorem insertDesc_sorted (x : String × ℚ) (l : List (String × ℚ))
    (h : l.Pairwise (fun a b => b.2 ≤ a.2)) :
    (insertDesc x l).Pairwise (fun a b => b.2 ≤ a.2) := by
  induction l with
  | nil => simp [insertDesc]
  | cons y ys ih =>
    obtain ⟨hy, hys⟩ := List.pairwise_cons.mp h
    unfold insertDesc
    split_ifs with hle
    · refine List.pairwise_cons.mpr ⟨?_, h⟩
      intro z hz
      rcases List.mem_cons.mp hz with rfl | hz
      · exact hle
      · exact le_trans (hy z hz) hle
    · refine List.pairwise_cons.mpr ⟨?_, ih hys⟩
      intro z hz
      have hz' : z ∈ x :: ys := (insertDesc_perm x ys).mem_iff.mp hz
      rcases List.mem_cons.mp hz' with rfl | hz'
      · linarith [not_le.mp hle]
      · exact hy z hz'

theorem sortDescBy_sorted (l : List (String × ℚ)) :
    (sortDescBy l).Pairwise (fun a b => b.2 ≤ a.2) := by
  induction l with
  | nil => exact List.Pairwise.nil
  | cons x xs ih => exact insertDesc_sorted x (sortDescBy xs) ih

/-! ## Claims -/

/-- C2: for every probability `p ∈ [0,1]`, `_get_risk_level` returns
`"high"` iff `p ≥ 0.7`, `"medium"` iff `0.3 ≤ p < 0.7`, `"low"` iff
`p < 0.3`; in particular `0.6999 → "medium"`, `0.7 → "high"`,
`0.2999 → "low"`, `0.3 → "medium"`. -/
theorem risk_level_spec (p : ℚ) (h0 : 0 ≤ p) (h1 : p ≤ 1) :
    (riskLevel p = "high" ↔ 7/10 ≤ p) ∧
    (riskLevel p = "medium" ↔ 3/10 ≤ p ∧ p < 7/10) ∧
    (riskLevel p = "low" ↔ p < 3/10) ∧
    riskLevel (6999/10000) = "medium" ∧ riskLevel (7/10) = "high" ∧
    riskLevel (2999/10000) = "low" ∧ riskLevel (3/10) = "medium" := by
  refine ⟨?_, ?_, ?_, by with_unfolding_all decide, by with_unfolding_all decide,
    by with_unfolding_all decide, by with_unfolding_all decide⟩
  · unfold riskLevel RISK_THRESHOLDS_high RISK_THRESHOLDS_medium
    split_ifs with ha hb
    · exact iff_of_true rfl ha
    · exact iff_of_false (by decide) ha
    · exact iff_of_false (by decide) ha
  · unfold riskLevel RISK_THRESHOLDS_high RISK_THRESHOLDS_medium
    split_ifs with ha hb
    · exact iff_of_false (by decide) (fun hc => absurd ha (not_le.mpr hc.2))
    · exact iff_of_true rfl ⟨hb, not_le.mp ha⟩
    · exact iff_of_false (by decide) (fun hc => hb hc.1)
  · unfold riskLevel RISK_THRESHOLDS_high RISK_THRESHOLDS_medium
    split_ifs with ha hb
    · exact iff_of_false (by decide) (not_lt.mpr (le_trans (by norm_num) ha))
    · exact iff_of_false (by decide) (not_lt.mpr hb)
    · exact iff_of_true rfl (not_le.mp hb)

/-- Witness for C2 at the concrete probability 1/2. -/
theorem risk_level_spec_witness :
    ((0 : ℚ) ≤ 1/2 ∧ (1/2 : ℚ) ≤ 1) ∧
      (riskLevel (1/2) = "medium" ↔ (3 : ℚ)/10 ≤ 1/2 ∧ (1/2 : ℚ) < 7/10) :=
  ⟨⟨by norm_num, by norm_num⟩, (risk_level_spec (1/2) (by norm_num) (by norm_num)).2.1⟩

/-- C3: for every `p ∈ [0,1]`, `_calculate_confidence_interval` returns
`lower = max(0, p - 1.96·sqrt(p(1-p)/100))` and
`upper = min(1, p + 1.96·sqrt(p(1-p)/100))`, the interval brackets `p`, and
the bracketing survives the rounding of all three values to 4 decimals that
`predict` applies. -/
theorem confidence_interval_spec (p : ℝ) (h0 : 0 ≤ p) (h1 : p ≤ 1) :
    ciLower p = max 0 (p - 1.96 * Real.sqrt (p * (1 - p) / 100)) ∧
    ciUpper p = min 1 (p + 1.96 * Real.sqrt (p * (1 - p) / 100)) ∧
    ciLower p ≤ p ∧ p ≤ ciUpper p ∧
    round4R (ciLower p) ≤ round4R p ∧ round4R p ≤ round4R (ciUpper p) := by
  have hs : 0 ≤ stdError p := Real.sqrt_nonneg _
  have hm : 0 ≤ 1.96 * stdError p := by
    have : (0 : ℝ) ≤ 1.96 := by norm_num
    exact mul_nonneg this hs
  have hl : ciLower p ≤ p := max_le h0 (by linarith)
  have hu : p ≤ ciUpper p := le_min h1 (by linarith)
  exact ⟨rfl, rfl, hl, hu, round4R_mono hl, round4R_mono hu⟩

/-- Witness for C3 at the concrete probability 1/2. -/
theorem confidence_interval_spec_witness :
    ((0 : ℝ) ≤ 1/2 ∧ (1/2 : ℝ) ≤ 1) ∧
      round4R (ciLower (1/2)) ≤ round4R ((1 : ℝ)/2) ∧
      round4R ((1 : ℝ)/2) ≤ round4R (ciUpper (1/2)) :=
  ⟨⟨by norm_num, by norm_num⟩,
    (confidence_interval_spec (1/2) (by norm_num) (by norm_num)).2.2.2.2⟩

/-- C9: an upload whose content hash already appears in the ledger is
flagged `is_duplicate = true`, but the retrain step runs unconditionally —
the duplicate flag never skips training. -/
theorem upload_always_retrains (history : List LedgerEntry) (h now : String) :
    (upload_csv_flow history h now).training_run = true ∧
    ((upload_csv_flow history h now).record.is_duplicate = true ↔
      ∃ e ∈ history, e.file_hash = h) := by
  constructor
  · rfl
  · show (findDup history h).isSome = true ↔ _
    rw [findDup, List.find?_isSome]
    constructor
    · rintro ⟨e, he, hfh⟩
      exact ⟨e, he, by simpa using hfh⟩
    · rintro ⟨e, he, hfh⟩
      exact ⟨e, he, by simpa using hfh⟩

/-- C10: whenever the loaded metadata holds a `feature_importance` map,
`get_feature_importance` returns it sorted by importance descending without
raising — even when `model_loaded` is false; `ModelNotLoadedError` is only
reachable when the metadata lacks that entry. -/
theorem feature_importance_from_metadata (st : FIState) (md : MetaJson)
    (fi : List (String × ℚ)) (hmd : st.metadata = some md)
    (hfi : md.feature_importance = some fi) :
    get_feature_importance st
        = .ok ((sortDescBy fi).map (fun p => (p.1, round6Q p.2))) ∧
    (∃ l, get_feature_importance st = .ok l ∧
      (l.map Prod.fst).Perm (fi.map Prod.fst) ∧
      l.Pairwise (fun a b => b.2 ≤ a.2)) ∧
    (∀ st' : FIState, get_feature_importance st' = .error PrepError.notLoaded →
      (st'.metadata.bind MetaJson.feature_importance) = none) := by
  have hret : get_feature_importance st
      = .ok ((sortDescBy fi).map (fun p => (p.1, round6Q p.2))) := by
    unfold get_feature_importance
    split
    · next md2 hm2 =>
      rw [hmd] at hm2
      injection hm2 with hm2
      subst hm2
      split
      · next fi2 hf2 =>
        rw [hfi] at hf2
        injection hf2 with hf2
        subst hf2
        rfl
      · next hf2 => rw [hfi] at hf2; cases hf2
    · next hm2 => rw [hmd] at hm2; cases hm2
  refine ⟨hret, ⟨_, hret, ?_, ?_⟩, ?_⟩
  · have h1 : ((sortDescBy fi).map (fun p => (p.1, round6Q p.2))).map Prod.fst
        = (sortDescBy fi).map Prod.fst := by
      rw [List.map_map]
      rfl
    rw [h1]
    exact (sortDescBy_perm fi).map Prod.fst
  · rw [List.pairwise_map]
    exact (sortDescBy_sorted fi).imp (fun h => round6Q_mono h)
  · intro st' h'
    unfold get_feature_importance at h'
    split at h'
    · split at h'
      · cases h'
      · next md' hf' =>
        rename_i hm'
        rw [hm']
        simpa [Option.bind] using hf'
    · next hm' => rw [hm']; rfl

/-- A concrete predictor state whose metadata carries an importance map but
whose model is not loaded. -/
def fiSampleState : FIState :=
  { bundle :=
      { feature_cols := [], categorical_cols := [], numerical_cols := []
        label_encoders := none, scaler := none, model_loaded := false }
    metadata := some { feature_importance := some [("tenure", 1/4), ("Contract", 1/2)] }
    model_importances := none }

/-- Witness for C10: the sample state is served the sorted importance list
even though `model_loaded` is false. -/
theorem feature_importance_from_metadata_witness :
    get_feature_importance fiSampleState = .ok [("Contract", 1/2), ("tenure", 1/4)] := by
  have h := (feature_importance_from_metadata fiSampleState
    { feature_importance := some [("tenure", 1/4), ("Contract", 1/2)] }
    [("tenure", 1/4), ("Contract", 1/2)] rfl rfl).1
  rw [h]
  have hv : (sortDescBy [("tenure", 1/4), ("Contract", 1/2)]).map
        (fun p => (p.1, round6Q p.2))
      = [("Contract", 1/2), ("tenure", 1/4)] := by with_unfolding_all decide
  rw [hv]

/-- A single-sheet Excel workbook that is exactly a documentation sheet. -/
def docSheet : Sheet := { cols := ["Data", "Variable", "Description"], nrows := 3 }

/-- C7 counterexample: a workbook whose only sheet has a documentation-sheet
column signature raises no `SchemaError` — `load_data` skips the sheet, then
falls back to reading it anyway, and training proceeds on it; only the upload
route's post-training re-read errors (with a `ValueError`, and only after
training already ran). -/
theorem doc_sheet_not_rejected :
    sheetHasMetaCols docSheet = true ∧
    load_data_excel [docSheet] = .ok docSheet ∧
    uploadReadExcel [docSheet] = .error "ValueError" := by
  refine ⟨by decide, ?_, ?_⟩ <;> rfl

/-- C7 amended: sheets intersecting the documentation keywords are skipped
when picking the data sheet, and `load_data` never raises: it returns the
first sheet with no documentation keywords and at least 10 rows, or falls
back to the first sheet of the workbook. -/
theorem load_data_excel_selects (sheets : List Sheet) (hne : sheets ≠ []) :
    ∃ s, load_data_excel sheets = .ok s ∧
      ((sheetHasMetaCols s = false ∧ 10 ≤ s.nrows ∧
          ∃ pre post, sheets = pre ++ s :: post ∧
            ∀ s' ∈ pre, sheetHasMetaCols s' = true ∨ s'.nrows < 10) ∨
        ((∀ s' ∈ sheets, sheetHasMetaCols s' = true ∨ s'.nrows < 10) ∧
          sheets.head? = some s)) := by
  have predT : ∀ s : Sheet, (!sheetHasMetaCols s && decide (10 ≤ s.nrows)) = true →
      sheetHasMetaCols s = false ∧ 10 ≤ s.nrows := by
    intro s h
    simp only [Bool.and_eq_true, Bool.not_eq_true', decide_eq_true_eq] at h
    exact h
  have predF : ∀ s : Sheet, ¬(!sheetHasMetaCols s && decide (10 ≤ s.nrows)) = true →
      sheetHasMetaCols s = true ∨ s.nrows < 10 := by
    intro s h
    by_cases hm : sheetHasMetaCols s
    · exact Or.inl hm
    · right
      simp only [Bool.and_eq_true, Bool.not_eq_true', decide_eq_true_eq, not_and] at h
      have := h (by simp [hm])
      omega
  unfold load_data_excel pickDataSheet
  cases hfind : sheets.find? (fun s => !sheetHasMetaCols s && decide (10 ≤ s.nrows)) with
  | some s =>
    refine ⟨s, rfl, Or.inl ?_⟩
    obtain ⟨hp, pre, post, heq, hall⟩ := List.find?_eq_some.mp hfind
    obtain ⟨h1, h2⟩ := predT s hp
    refine ⟨h1, h2, pre, post, heq, fun s' hs' => ?_⟩
    have hx := hall s' hs'
    simpa using hx
  | none =>
    have hall := List.find?_eq_none.mp hfind
    cases hh : sheets.head? with
    | none =>
      cases sheets with
      | nil => exact absurd rfl hne
      | cons a t => cases hh
    | some s =>
      exact ⟨s, rfl, Or.inr ⟨fun s' hs' => predF s' (hall s' hs'), rfl⟩⟩

/-- Witness for C7's amended statement: a two-sheet workbook where the
documentation sheet is skipped in favour of the data sheet behind it. -/
theorem load_data_excel_selects_witness :
    ∃ s, load_data_excel [docSheet, { cols := ["customerID", "Churn"], nrows := 40 }]
        = .ok s ∧
      ((sheetHasMetaCols s = false ∧ 10 ≤ s.nrows ∧
          ∃ pre post, [docSheet, { cols := ["customerID", "Churn"], nrows := 40 }]
              = pre ++ s :: post ∧
            ∀ s' ∈ pre, sheetHasMetaCols s' = true ∨ s'.nrows < 10) ∨
        ((∀ s' ∈ [docSheet, { cols := ["customerID", "Churn"], nrows := 40 }],
            sheetHasMetaCols s' = true ∨ s'.nrows < 10) ∧
          [docSheet, { cols := ["customerID", "Churn"], nrows := 40 }].head? = some s)) :=
  load_data_excel_selects [docSheet, { cols := ["customerID", "Churn"], nrows := 40 }]
    (by decide)

theorem contains_eq_false_of_not_mem (l : List String) (d : String) (h : d ∉ l) :
    l.contains d = false := by
  cases hb : l.contains d
  · rfl
  · exact absurd (List.elem_iff.mp hb) h

/-- C8: target detection returns the first alias of the priority list that
occurs among the columns; with no alias present it returns the last column
when that column has at most 5 distinct values and otherwise fails with the
`SchemaError`-style `ValueError`. -/
theorem detect_target_spec (df : DF) (hne : columnsDF df ≠ []) :
    (∀ c, detectTarget df = .ok c ↔
      ((∃ pre post, target_candidates = pre ++ c :: post ∧
          (∀ d ∈ pre, d ∉ columnsDF df) ∧ c ∈ columnsDF df) ∨
        ((∀ d ∈ target_candidates, d ∉ columnsDF df) ∧
          (columnsDF df).getLast? = some c ∧ nunique (colVals df c) ≤ 5))) ∧
    (isOkE (detectTarget df) = false ↔
      ((∀ d ∈ target_candidates, d ∉ columnsDF df) ∧
        ∀ c, (columnsDF df).getLast? = some c → 5 < nunique (colVals df c))) := by
  cases hfind : target_candidates.find? (fun c => (columnsDF df).contains c) with
  | some c0 =>
    have hdt : detectTarget df = .ok c0 := by
      unfold detectTarget
      rw [hfind]
    obtain ⟨hp0, pre0, post0, heq0, hall0⟩ := List.find?_eq_some.mp hfind
    have hc0mem : c0 ∈ columnsDF df := List.elem_iff.mp hp0
    have hc0cand : c0 ∈ target_candidates := by
      rw [heq0]
      exact List.mem_append_right _ (List.mem_cons_self _ _)
    have hpre0 : ∀ d ∈ pre0, d ∉ columnsDF df := by
      intro d hd hmem
      have hx := hall0 d hd
      have hcd : (columnsDF df).contains d = true := List.elem_iff.mpr hmem
      rw [hcd] at hx
      simp at hx
    constructor
    · intro c
      constructor
      · intro h
        rw [hdt] at h
        injection h with h
        subst h
        exact Or.inl ⟨pre0, post0, heq0, hpre0, hc0mem⟩
      · intro h
        rcases h with ⟨pre, post, heq, hpre, hcmem⟩ | ⟨habs, _, _⟩
        · have hself : target_candidates.find? (fun c' => (columnsDF df).contains c')
              = some c := by
            rw [List.find?_eq_some]
            refine ⟨List.elem_iff.mpr hcmem, pre, post, heq, fun d hd => ?_⟩
            rw [contains_eq_false_of_not_mem _ _ (hpre d hd)]
            rfl
          rw [hfind] at hself
          injection hself with h2
          rw [hdt, h2]
        · exact absurd hc0mem (habs c0 hc0cand)
    · constructor
      · intro h
        rw [hdt] at h
        simp [isOkE] at h
      · rintro ⟨habs, -⟩
        exact absurd hc0mem (habs c0 hc0cand)
  | none =>
    have hall := List.find?_eq_none.mp hfind
    have habs : ∀ d ∈ target_candidates, d ∉ columnsDF df := fun d hd hmem =>
      (hall d hd) (List.elem_iff.mpr hmem)
    cases hlast : (columnsDF df).getLast? with
    | none => exact absurd (List.getLast?_eq_none.mp hlast) hne
    | some lastc =>
      have hred : detectTarget df
          = if nunique (colVals df lastc) ≤ 5 then Except.ok lastc
            else Except.error "SchemaError" := by
        unfold detectTarget
        rw [hfind, hlast]
      by_cases hnu : nunique (colVals df lastc) ≤ 5
      · have hdt : detectTarget df = .ok lastc := by rw [hred, if_pos hnu]
        constructor
        · intro c
          constructor
          · intro h
            rw [hdt] at h
            injection h with h
            subst h
            exact Or.inr ⟨habs, rfl, hnu⟩
          · intro h
            rcases h with ⟨pre, post, heq, hpre, hcmem⟩ | ⟨-, hl, -⟩
            · refine absurd hcmem (habs c ?_)
              rw [heq]
              exact List.mem_append_right _ (List.mem_cons_self _ _)
            · injection hl with hl
              rw [hdt, hl]
        · constructor
          · intro h
            rw [hdt] at h
            simp [isOkE] at h
          · rintro ⟨-, hfa⟩
            exact absurd (hfa lastc rfl) (not_lt.mpr hnu)
      · have hdt : detectTarget df = .error "SchemaError" := by rw [hred, if_neg hnu]
        constructor
        · intro c
          constructor
          · intro h
            rw [hdt] at h
            cases h
          · intro h
            rcases h with ⟨pre, post, heq, hpre, hcmem⟩ | ⟨-, hl, hn⟩
            · refine absurd hcmem (habs c ?_)
              rw [heq]
              exact List.mem_append_right _ (List.mem_cons_self _ _)
            · injection hl with hl
              subst hl
              exact absurd hn hnu
        · constructor
          · intro _
            refine ⟨habs, fun c hc => ?_⟩
            injection hc with hc
            subst hc
            exact not_le.mp hnu
          · intro _
            rw [hdt]
            rfl

/-- A tiny concrete frame with an alias target column for the C8 witness. -/
def dfTiny : DF :=
  [("customerID", [some (.str "a"), some (.str "b")]),
   ("Exited", [some (.num 1), some (.num 0)])]

/-- Witness for C8: on `dfTiny` the detection characterisation applies and
yields the alias column `"Exited"`. -/
theorem detect_target_spec_witness :
    columnsDF dfTiny ≠ [] ∧
      (detectTarget dfTiny = .ok "Exited" ↔
        ((∃ pre post, target_candidates = pre ++ "Exited" :: post ∧
            (∀ d ∈ pre, d ∉ columnsDF dfTiny) ∧ "Exited" ∈ columnsDF dfTiny) ∨
          ((∀ d ∈ target_candidates, d ∉ columnsDF dfTiny) ∧
            (columnsDF dfTiny).getLast? = some "Exited" ∧
            nunique (colVals dfTiny "Exited") ≤ 5))) :=
  ⟨by decide, (detect_target_spec dfTiny (by decide)).1 "Exited"⟩

/-- A 10-row training frame with two target classes — below the 20-row
minimum the specification postulates. -/
def df10 : DF :=
  [("tenure",
    [some (.num 1), some (.num 2), some (.num 3), some (.num 4), some (.num 5),
     some (.num 6), some (.num 7), some (.num 8), some (.num 9), some (.num 10)]),
   ("Churn",
    [some (.str "Yes"), some (.str "No"), some (.str "Yes"), some (.str "No"),
     some (.str "Yes"), some (.str "No"), some (.str "Yes"), some (.str "No"),
     some (.str "Yes"), some (.str "No")])]

/-- C6 counterexample: the training script never raises a `TrainingError`
for a dataset below the postulated minimum row count — `df10` has 10 rows
(and 2 target classes), yet the repository-level pipeline completes and
hands a design matrix to the library. -/
theorem small_dataset_trains :
    nrowsDF df10 = 10 ∧ nunique (colVals df10 "Churn") = 2 ∧
    isOkE (trainPipeline df10) = true := by
  refine ⟨rfl, by with_unfolding_all decide, ?_⟩
  with_unfolding_all decide

/-- C6 amended: the only failure the training script itself can raise
before handing off to the libraries is target detection; every dataset with
a detectable target flows through `prepare_features` (which is total) into
model fitting, with no row-count, class-count or matrix-shape check. -/
theorem train_pipeline_errors_iff (df : DF) :
    isOkE (trainPipeline df) = isOkE (detectTarget df) := by
  unfold trainPipeline
  cases detectTarget df <;> rfl

theorem keys_mk {β : Type} (F : String → β) (ks : List String) :
    (ks.map (fun c => (c, F c))).map Prod.fst = ks := by
  rw [List.map_map]
  rw [show (Prod.fst ∘ fun c => (c, F c)) = id from rfl, List.map_id]

theorem keys_batchX (b : Bundle) (row : Row) :
    (batchX b row).map Prod.fst = b.feature_cols := by
  unfold batchX
  cases b.label_encoders with
  | none => exact keys_mk _ _
  | some encs => rw [keys_applyEnc, keys_mk]

/-- Pre-float agreement of the two code paths: when every categorical
column holds a string value in the input row, the column values assembled by
`prepare_features` equal those assembled by `batch_prepare_features`. -/
theorem pre_float_agree (b : Bundle) (row : Row)
    (hshape : b.feature_cols = b.categorical_cols ++ b.numerical_cols)
    (hnd : b.feature_cols.Nodup)
    (hcat : ∀ c ∈ b.categorical_cols, ∃ s, lookupRow row c = some (.str s)) :
    b.feature_cols.map (fun f => (lookupRow (singleDF b row) f).getD (.num 0))
      = (batchX b row).map Prod.snd := by
  have hcats_nd : b.categorical_cols.Nodup := by
    rw [hshape] at hnd
    exact (List.nodup_append.mp hnd).1
  have hdisj : b.categorical_cols.Disjoint b.numerical_cols := by
    rw [hshape] at hnd
    exact (List.nodup_append.mp hnd).2.2
  cases hLE : b.label_encoders with
  | none =>
    unfold singleDF batchX
    rw [hLE, List.map_map]
    rfl
  | some encs =>
    unfold singleDF batchX
    rw [hLE]
    have hkeys1 : (applyEnc encodeCatBatch encs b.categorical_cols
        (b.feature_cols.map (fun c => (c, (lookupRow row c).getD (.num 0))))).map Prod.fst
        = b.feature_cols := by
      rw [keys_applyEnc, keys_mk]
    rw [map_snd_eq_keys_map _ (by rw [hkeys1]; exact hnd), hkeys1]
    refine List.map_congr_left (fun f hf => ?_)
    have hf2 : f ∈ b.categorical_cols ∨ f ∈ b.numerical_cols := by
      rw [hshape] at hf
      exact List.mem_append.mp hf
    rcases hf2 with hfc | hfn
    · obtain ⟨s, hs⟩ := hcat f hfc
      rw [show lookupRow (applyEnc encodeCatSingle encs b.categorical_cols row) f =
          lookupAL (applyEnc encodeCatSingle encs b.categorical_cols row) f from rfl]
      rw [applyEnc_lookup_mem _ _ _ _ _ hcats_nd hfc,
        applyEnc_lookup_mem _ _ _ _ _ hcats_nd hfc]
      unfold encOnce
      rw [show lookupAL (b.feature_cols.map
          (fun c => (c, (lookupRow row c).getD (Val.num 0)))) f
          = some ((lookupRow row f).getD (Val.num 0)) from lookupAL_map_self _ _ _ hf]
      rw [show lookupAL row f = some (Val.str s) from hs]
      rw [show lookupRow row f = some (Val.str s) from hs]
      cases lookupEnc encs f with
      | none => rfl
      | some classes => rfl
    · have hfnc : f ∉ b.categorical_cols := fun hc => hdisj hc hfn
      rw [show lookupRow (applyEnc encodeCatSingle encs b.categorical_cols row) f =
          lookupAL (applyEnc encodeCatSingle encs b.categorical_cols row) f from rfl]
      rw [applyEnc_lookup_not_mem _ _ _ _ _ hfnc,
        applyEnc_lookup_not_mem _ _ _ _ _ hfnc]
      rw [show lookupAL (b.feature_cols.map
          (fun c => (c, (lookupRow row c).getD (Val.num 0)))) f
          = some ((lookupRow row f).getD (Val.num 0)) from lookupAL_map_self _ _ _ hf]
      rfl

theorem lookupAL_zip {β : Type} (ks : List String) (vs : List β) (hnd : ks.Nodup)
    (hlen : vs.length = ks.length) : ∀ (i : ℕ) (k : String), ks[i]? = some k →
    lookupAL (ks.zip vs) k = vs[i]? := by
  induction ks generalizing vs with
  | nil => intro i k hk; simp at hk
  | cons a t ih =>
    intro i k hk
    cases vs with
    | nil => simp at hlen
    | cons v vt =>
      obtain ⟨hat, hnt⟩ := List.nodup_cons.mp hnd
      cases i with
      | zero =>
        simp only [List.getElem?_cons_zero, Option.some.injEq] at hk
        subst hk
        rw [List.zip_cons_cons]
        simp [lookupAL]
      | succ n =>
        simp only [List.getElem?_cons_succ] at hk
        have hmem : k ∈ t := by
          obtain ⟨hlt, he⟩ := List.getElem?_eq_some.mp hk
          exact he ▸ List.getElem_mem hlt
        have hak : a ≠ k := fun e => hat (e ▸ hmem)
        rw [List.zip_cons_cons]
        show (if a = k then some v else lookupAL (t.zip vt) k) = (v :: vt)[n + 1]?
        rw [if_neg hak, List.getElem?_cons_succ]
        exact ih vt hnt (by simpa using hlen) n k hk

theorem map_getD_range {α : Type} (l : List α) (d : α) :
    (List.range l.length).map (fun j => l.getD j d) = l := by
  induction l with
  | nil => rfl
  | cons x t ih =>
    rw [List.length_cons, List.range_succ_eq_map, List.map_cons, List.map_map,
      show ((fun j => (x :: t).getD j d) ∘ Nat.succ) = (fun j => t.getD j d) from rfl, ih]
    rfl

theorem numIndices_eq (b : Bundle)
    (hshape : b.feature_cols = b.categorical_cols ++ b.numerical_cols)
    (hnd : b.feature_cols.Nodup) :
    numIndices b = (List.range b.numerical_cols.length).map
      (fun j => b.categorical_cols.length + j) := by
  have hdisj : b.categorical_cols.Disjoint b.numerical_cols := by
    rw [hshape] at hnd
    exact (List.nodup_append.mp hnd).2.2
  unfold numIndices
  rw [hshape, List.length_append, List.range_add, List.filter_append]
  have h1 : (List.range b.categorical_cols.length).filter
      (fun i => match (b.categorical_cols ++ b.numerical_cols)[i]? with
        | some f => b.numerical_cols.contains f
        | none => false) = [] := by
    rw [List.filter_eq_nil_iff]
    intro i hi
    have hilt : i < b.categorical_cols.length := List.mem_range.mp hi
    rw [List.getElem?_append_left hilt, List.getElem?_eq_getElem hilt]
    intro hc
    exact hdisj (List.getElem_mem hilt) (List.elem_iff.mp hc)
  have h2 : ((List.range b.numerical_cols.length).map
        (fun x => b.categorical_cols.length + x)).filter
      (fun i => match (b.categorical_cols ++ b.numerical_cols)[i]? with
        | some f => b.numerical_cols.contains f
        | none => false)
      = (List.range b.numerical_cols.length).map
        (fun x => b.categorical_cols.length + x) := by
    rw [List.filter_eq_self]
    intro a ha
    obtain ⟨j, hj, rfl⟩ := List.mem_map.mp ha
    have hjlt : j < b.numerical_cols.length := List.mem_range.mp hj
    rw [List.getElem?_append_right (by omega),
      show b.categorical_cols.length + j - b.categorical_cols.length = j from by omega,
      List.getElem?_eq_getElem hjlt]
    exact List.elem_iff.mpr (List.getElem_mem hjlt)
  rw [h1, h2, List.nil_append]

/-- The two scaling steps agree: positional fancy-indexing over
`num_indices` (single path) and by-name assignment over `valid_num_cols`
(batch path) produce the same scaled vector for a bundle whose feature
order is the training order (categoricals then numericals). -/
theorem scale_paths_agree (b : Bundle) (xs : List ℚ)
    (hshape : b.feature_cols = b.categorical_cols ++ b.numerical_cols)
    (hnd : b.feature_cols.Nodup)
    (hlen : xs.length = b.feature_cols.length) :
    (scaleBatchCols b (b.feature_cols.zip xs)).map (fun X => X.map Prod.snd)
      = scaleSingle b xs := by
  have hlen' : xs.length = b.categorical_cols.length + b.numerical_cols.length := by
    rw [hlen, hshape, List.length_append]
  have hfclen : b.feature_cols.length
      = b.categorical_cols.length + b.numerical_cols.length := by
    rw [hshape, List.length_append]
  have hnums_nd : b.numerical_cols.Nodup := by
    rw [hshape] at hnd
    exact (List.nodup_append.mp hnd).2.1
  have hdisj : b.categorical_cols.Disjoint b.numerical_cols := by
    rw [hshape] at hnd
    exact (List.nodup_append.mp hnd).2.2
  have hkeys : (b.feature_cols.zip xs).map Prod.fst = b.feature_cols :=
    List.map_fst_zip _ _ (le_of_eq hlen.symm)
  have hvalid : validNumCols b (b.feature_cols.zip xs) = b.numerical_cols := by
    unfold validNumCols
    rw [hkeys, List.filter_eq_self]
    intro c hc
    exact List.elem_iff.mpr (by rw [hshape]; exact List.mem_append_right _ hc)
  have hsnd : (b.feature_cols.zip xs).map Prod.snd = xs :=
    List.map_snd_zip _ _ (le_of_eq hlen)
  unfold scaleSingle scaleBatchCols
  cases hsc : b.scaler with
  | none => rw [Option.map_some', hsnd]
  | some params =>
    by_cases hm0 : b.numerical_cols.isEmpty = true
    · simp only [if_pos hm0, Option.map_some', hsnd]
    · have hmpos : 0 < b.numerical_cols.length :=
        List.length_pos.mpr (fun he => hm0 (List.isEmpty_iff.mpr he))
      have hidx : numIndices b
          = (List.range b.numerical_cols.length).map
              (fun j => b.categorical_cols.length + j) := numIndices_eq b hshape hnd
      have hvne : ¬ ((validNumCols b (b.feature_cols.zip xs)).isEmpty = true) := by
        rw [hvalid]
        exact hm0
      have hine : ¬ (((List.range b.numerical_cols.length).map
          (fun j => b.categorical_cols.length + j)).isEmpty = true) := by
        rw [List.isEmpty_iff, List.map_eq_nil, List.range_eq_nil]
        omega
      simp only [if_neg hm0, if_neg hvne, hvalid, hidx, if_neg hine]
      have hsel1 : ((List.range b.numerical_cols.length).map
            (fun j => b.categorical_cols.length + j)).map (fun i => xs.getD i 0)
          = xs.drop b.categorical_cols.length := by
        rw [List.map_map,
          show ((fun i => xs.getD i 0) ∘ fun j => b.categorical_cols.length + j)
            = (fun j => (xs.drop b.categorical_cols.length).getD j 0) from by
              funext j
              show xs.getD (b.categorical_cols.length + j) 0
                  = (xs.drop b.categorical_cols.length).getD j 0
              rw [List.getD_eq_getElem?_getD, List.getD_eq_getElem?_getD,
                List.getElem?_drop],
          show b.numerical_cols.length = (xs.drop b.categorical_cols.length).length from by
            rw [List.length_drop, hlen']
            omega,
          map_getD_range]
      have hsel2 : b.numerical_cols.map
            (fun c => (lookupAL (b.feature_cols.zip xs) c).getD 0)
          = xs.drop b.categorical_cols.length := by
        apply List.ext_getElem?
        intro j
        rw [List.getElem?_map, List.getElem?_drop]
        by_cases hj : j < b.numerical_cols.length
        · have hfk : b.feature_cols[b.categorical_cols.length + j]?
              = some (b.numerical_cols[j]) := by
            rw [hshape, List.getElem?_append_right (by omega),
              show b.categorical_cols.length + j - b.categorical_cols.length = j
                from by omega, List.getElem?_eq_getElem hj]
          have hlk := lookupAL_zip b.feature_cols xs hnd hlen
            (b.categorical_cols.length + j) _ hfk
          have hjx : b.categorical_cols.length + j < xs.length := by omega
          rw [List.getElem?_eq_getElem hj, Option.map_some', hlk,
            List.getElem?_eq_getElem hjx]
          rfl
        · rw [List.getElem?_eq_none (by omega), List.getElem?_eq_none (by omega)]
          rfl
      rw [hsel1, hsel2]
      cases hts : transformSel params (xs.drop b.categorical_cols.length) with
      | none => rfl
      | some ys =>
        rw [Option.map_some']
        congr 1
        obtain ⟨hys, -⟩ := transformSel_some params _ ys hts
        have hysm : ys.length = b.numerical_cols.length := by
          rw [hys, List.length_drop, hlen']
          omega
        apply List.ext_getElem?
        intro j
        rw [scatterSel_getElem?, List.getElem?_map, List.getElem?_map, Nat.zero_add]
        by_cases hj2 : j < xs.length
        · have hjfc : j < b.feature_cols.length := by omega
          have hxj : xs[j]? = some (xs[j]) := List.getElem?_eq_getElem hj2
          by_cases hj1 : j < b.categorical_cols.length
          · have hzip : (b.feature_cols.zip xs)[j]?
                = some (b.categorical_cols[j], xs[j]) := by
              apply List.getElem?_zip_eq_some.mpr
              refine ⟨?_, hxj⟩
              rw [hshape, List.getElem?_append_left hj1, List.getElem?_eq_getElem hj1]
            have hnone1 : idxOf? (b.categorical_cols[j]) b.numerical_cols = none :=
              idxOf?_eq_none _ _ (fun hmem => hdisj (List.getElem_mem hj1) hmem)
            have hnone2 : idxOf? j ((List.range b.numerical_cols.length).map
                (fun j => b.categorical_cols.length + j)) = none := by
              rw [idxOf?_map_add_range, if_neg (by omega)]
            rw [hzip, Option.map_some', Option.map_some', hxj, Option.map_some',
              hnone1, hnone2]
          · have hnlt : j - b.categorical_cols.length < b.numerical_cols.length := by
              omega
            have hk : b.feature_cols[j]?
                = some (b.numerical_cols[j - b.categorical_cols.length]) := by
              have h1 : b.feature_cols[j]?
                  = b.numerical_cols[j - b.categorical_cols.length]? := by
                rw [hshape, List.getElem?_append_right (by omega)]
              rw [h1, List.getElem?_eq_getElem hnlt]
            have hzip : (b.feature_cols.zip xs)[j]?
                = some (b.numerical_cols[j - b.categorical_cols.length], xs[j]) :=
              List.getElem?_zip_eq_some.mpr ⟨hk, hxj⟩
            have hsome1 : idxOf? (b.numerical_cols[j - b.categorical_cols.length])
                b.numerical_cols = some (j - b.categorical_cols.length) :=
              idxOf?_of_getElem _ hnums_nd _ _ (List.getElem?_eq_getElem hnlt)
            have hsome2 : idxOf? j ((List.range b.numerical_cols.length).map
                (fun j => b.categorical_cols.length + j))
                = some (j - b.categorical_cols.length) := by
              rw [idxOf?_map_add_range, if_pos (by omega)]
            rw [hzip, Option.map_some', Option.map_some', hxj, Option.map_some',
              hsome1, hsome2]
        · have hznone : (b.feature_cols.zip xs)[j]? = none := by
            apply List.getElem?_eq_none
            rw [List.length_zip]
            omega
          have hxnone : xs[j]? = none := List.getElem?_eq_none (by omega)
          rw [hznone, hxnone]
          rfl

/-- C1 amended: for a bundle in training shape (`feature_cols =
categorical_cols ++ numerical_cols`, without duplicates) and an input row in
which every categorical feature is present with a string value, the
single-row and the batch feature preparation produce identical results (so
in particular they agree elementwise within any tolerance).  The two
hypotheses on the row are forced by the counterexample below. -/
theorem prepare_single_batch_agree (b : Bundle) (row : Row)
    (hload : b.model_loaded = true)
    (hshape : b.feature_cols = b.categorical_cols ++ b.numerical_cols)
    (hnd : b.feature_cols.Nodup)
    (hcat : ∀ c ∈ b.categorical_cols, ∃ s, lookupRow row c = some (.str s)) :
    prepare_features b row = batch_prepare_features b row := by
  unfold prepare_features batch_prepare_features
  rw [if_pos hload, if_pos hload,
    ← pre_float_agree b row hshape hnd hcat, keys_batchX]
  cases hxs : (b.feature_cols.map
      (fun f => (lookupRow (singleDF b row) f).getD (.num 0))).mapM valToFloat with
  | none => rfl
  | some xs =>
    dsimp only
    have hlen : xs.length = b.feature_cols.length := by
      have h1 := (mapM_option_getElem _ _ _ hxs).1
      rw [h1, List.length_map]
    have hs := scale_paths_agree b xs hshape hnd hlen
    rw [← hs]
    cases scaleBatchCols b (b.feature_cols.zip xs) with
    | none => rfl
    | some X2 => rfl

/-- A bundle whose one categorical feature was fitted on the string values
"0"/"1" (as the training script always fits encoders on `astype(str)`
values). -/
def bundleCE : Bundle :=
  { feature_cols := ["SeniorFlag"], categorical_cols := ["SeniorFlag"]
    numerical_cols := [], label_encoders := some [("SeniorFlag", ["0", "1"])]
    scaler := none, model_loaded := true }

/-- An input row supplying the categorical feature as the *number* 1 — a
perfectly ordinary JSON payload. -/
def rowCE : Row := [("SeniorFlag", .num 1)]

/-- C1 counterexample: on `rowCE` the single path tests the raw number
against the string vocabulary (miss → 0), while the batch path converts the
value with `astype(str)` first ("1" → index 1): the two feature vectors
differ by 1, far beyond the 1e-9 tolerance. -/
theorem prepare_single_batch_counterexample :
    prepare_features bundleCE rowCE = .ok [0] ∧
    batch_prepare_features bundleCE rowCE = .ok [1] ∧
    ¬ (|(0 : ℚ) - 1| ≤ 1/1000000000) := by
  refine ⟨?_, ?_, by norm_num⟩ <;> with_unfolding_all decide

/-- A training-shaped bundle with one categorical and one scaled numerical
feature, for the C1 witness. -/
def bundleW : Bundle :=
  { feature_cols := ["Contract", "tenure"], categorical_cols := ["Contract"]
    numerical_cols := ["tenure"]
    label_encoders := some [("Contract", ["Month-to-month", "One year"])]
    scaler := some [(2, 1)], model_loaded := true }

def rowW : Row := [("Contract", .str "One year"), ("tenure", .num 5)]

/-- Witness for C1's amended statement at a concrete bundle and row. -/
theorem prepare_single_batch_agree_witness :
    prepare_features bundleW rowW = batch_prepare_features bundleW rowW ∧
    prepare_features bundleW rowW = .ok [1, 3] := by
  constructor
  · refine prepare_single_batch_agree bundleW rowW rfl rfl (by decide) ?_
    intro c hc
    have hc' : c = "Contract" := by
      rcases List.mem_cons.mp hc with h | h
      · exact h
      · cases h
    subst hc'
    exact ⟨"One year", by with_unfolding_all rfl⟩
  · with_unfolding_all decide

/-- A bundle with a single scaled numerical feature. -/
def bundleNum : Bundle :=
  { feature_cols := ["tenure"], categorical_cols := [], numerical_cols := ["tenure"]
    label_encoders := none, scaler := some [(0, 1)], model_loaded := true }

def rowNum : Row := [("tenure", .str "abc")]

/-- C5 counterexample: a numerical feature holding a non-numeric string is
not coerced to 0 — `prepare_features` raises the `astype(float)`
`ValueError` instead of returning the claimed scaled zero vector. -/
theorem invalid_numeric_counterexample :
    prepare_features bundleNum rowNum = .error PrepError.valueError ∧
    prepare_features bundleNum rowNum ≠ .ok [0] := by
  constructor
  · with_unfolding_all decide
  · with_unfolding_all decide

/-- C5 amended: a numerical feature value that is not convertible to a
number makes `prepare_features` raise the float-conversion `ValueError` —
the error branch is reachable and no coercion to 0 takes place (only a
feature *absent* from the row defaults to 0). -/
theorem invalid_numeric_raises (b : Bundle) (row : Row) (c s : String)
    (hload : b.model_loaded = true)
    (hshape : b.feature_cols = b.categorical_cols ++ b.numerical_cols)
    (hnd : b.feature_cols.Nodup)
    (hc : c ∈ b.numerical_cols)
    (hv : lookupRow row c = some (.str s))
    (hp : parsePyFloat s = none) :
    prepare_features b row = .error PrepError.valueError := by
  unfold prepare_features
  rw [if_pos hload]
  have hcf : c ∈ b.feature_cols := by
    rw [hshape]
    exact List.mem_append_right _ hc
  have hnc : c ∉ b.categorical_cols := by
    intro hcc
    rw [hshape] at hnd
    exact (List.nodup_append.mp hnd).2.2 hcc hc
  have hval : (lookupRow (singleDF b row) c).getD (Val.num 0) = Val.str s := by
    unfold singleDF
    cases b.label_encoders with
    | none => rw [hv]; rfl
    | some encs =>
      rw [show lookupRow (applyEnc encodeCatSingle encs b.categorical_cols row) c
          = lookupAL (applyEnc encodeCatSingle encs b.categorical_cols row) c from rfl,
        applyEnc_lookup_not_mem _ _ _ _ _ hnc,
        show lookupAL row c = some (Val.str s) from hv]
      rfl
  have hmem : Val.str s ∈ b.feature_cols.map
      (fun f => (lookupRow (singleDF b row) f).getD (Val.num 0)) := by
    rw [← hval]
    exact List.mem_map_of_mem _ hcf
  rw [mapM_option_none valToFloat _ _ hmem
    (by rw [show valToFloat (Val.str s) = parsePyFloat s from rfl, hp])]

/-- Witness for C5's amended statement on the concrete bundle and row. -/
theorem invalid_numeric_raises_witness :
    prepare_features bundleNum rowNum = .error PrepError.valueError :=
  invalid_numeric_raises bundleNum rowNum "tenure" "abc" rfl rfl (by decide)
    (by decide) (by with_unfolding_all rfl) (by with_unfolding_all rfl)

/-- Unknown-value predicate (the value is not in the fitted vocabulary): a string outside
`classes_`, or any non-string value (which never equals a string class). -/
def unknownFor (classes : List String) : Val → Prop
  | .str s => idxOf? s classes = none
  | .num _ => True

theorem scaleSingle_ok_keep (b : Bundle) (xs : List ℚ) (i : ℕ)
    (hshape : b.feature_cols = b.categorical_cols ++ b.numerical_cols)
    (hnd : b.feature_cols.Nodup)
    (hscal : ∀ params, b.scaler = some params →
      params.length = b.numerical_cols.length)
    (hi : i < b.categorical_cols.length) :
    ∃ ys, scaleSingle b xs = some ys ∧ ys[i]? = xs[i]? := by
  unfold scaleSingle
  cases hsc : b.scaler with
  | none => exact ⟨xs, rfl, rfl⟩
  | some params =>
    dsimp only
    by_cases hm0 : b.numerical_cols.isEmpty = true
    · rw [if_pos hm0]
      exact ⟨xs, rfl, rfl⟩
    · rw [if_neg hm0]
      by_cases hi0 : (numIndices b).isEmpty = true
      · rw [if_pos hi0]
        exact ⟨xs, rfl, rfl⟩
      · rw [if_neg hi0]
        have hidx := numIndices_eq b hshape hnd
        have ht : transformSel params ((numIndices b).map (fun i => xs.getD i 0))
            = some ((((numIndices b).map (fun i => xs.getD i 0)).zip params).map
                (fun p => (p.1 - p.2.1) / p.2.2)) := by
          unfold transformSel
          rw [if_pos (by
            rw [List.length_map, hidx, List.length_map, List.length_range,
              hscal params hsc])]
        rw [ht]
        refine ⟨_, rfl, ?_⟩
        rw [scatterSel_getElem?, Nat.zero_add, hidx, idxOf?_map_add_range,
          if_neg (by omega)]
        cases xs[i]? <;> rfl

/-- C4 amended: an unknown categorical value never aborts the single-row
preparation by itself — it is encoded as 0 — and, provided the remaining
feature values are float-convertible (forced by the counterexample below)
and the scaler matches its fitted width, `prepare_features` succeeds and
`predict` returns a well-formed result. -/
theorem unknown_categorical_defaults (b : Bundle) (row : Row)
    (encs : List (String × List String)) (c : String) (classes : List String) (v : Val)
    (hload : b.model_loaded = true)
    (hshape : b.feature_cols = b.categorical_cols ++ b.numerical_cols)
    (hnd : b.feature_cols.Nodup)
    (hLE : b.label_encoders = some encs)
    (hc : c ∈ b.categorical_cols)
    (hcls : lookupEnc encs c = some classes)
    (hv : lookupRow row c = some v)
    (hunk : unknownFor classes v)
    (hnum : ∀ f ∈ b.numerical_cols, ∀ w, lookupRow row f = some w →
      (valToFloat w).isSome)
    (hcat2 : ∀ f ∈ b.categorical_cols, lookupEnc encs f = none →
      ∀ w, lookupRow row f = some w → (valToFloat w).isSome)
    (hscal : ∀ params, b.scaler = some params →
      params.length = b.numerical_cols.length) :
    ∃ xs i, prepare_features b row = .ok xs ∧
      idxOf? c b.feature_cols = some i ∧ xs[i]? = some 0 ∧
      ∀ proba, predict b proba row
        = .ok { churn_probability := round4Q (proba xs)
                risk_level := riskLevel (proba xs) } := by
  have hcats_nd : b.categorical_cols.Nodup := by
    rw [hshape] at hnd
    exact (List.nodup_append.mp hnd).1
  have hdisj : b.categorical_cols.Disjoint b.numerical_cols := by
    rw [hshape] at hnd
    exact (List.nodup_append.mp hnd).2.2
  have hcf : c ∈ b.feature_cols := by
    rw [hshape]
    exact List.mem_append_left _ hc
  have hvalc : (lookupRow (singleDF b row) c).getD (Val.num 0) = Val.num 0 := by
    unfold singleDF
    rw [hLE,
      show lookupRow (applyEnc encodeCatSingle encs b.categorical_cols row) c
        = lookupAL (applyEnc encodeCatSingle encs b.categorical_cols row) c from rfl,
      applyEnc_lookup_mem _ _ _ _ _ hcats_nd hc]
    unfold encOnce
    rw [show lookupAL row c = some v from hv, hcls]
    have henc : encodeCatSingle classes v = 0 := by
      cases v with
      | num q => rfl
      | str s =>
        unfold unknownFor at hunk
        show ((idxOf? s classes).map (fun n => (n : ℚ))).getD 0 = 0
        rw [hunk]
        rfl
    dsimp only
    rw [henc]
    rfl
  have hall : ∀ y ∈ b.feature_cols.map
      (fun f => (lookupRow (singleDF b row) f).getD (Val.num 0)),
      (valToFloat y).isSome := by
    intro y hy
    obtain ⟨f, hf, rfl⟩ := List.mem_map.mp hy
    rcases List.mem_append.mp (by rw [← hshape]; exact hf) with hfc | hfn
    · unfold singleDF
      rw [hLE,
        show lookupRow (applyEnc encodeCatSingle encs b.categorical_cols row) f
          = lookupAL (applyEnc encodeCatSingle encs b.categorical_cols row) f from rfl,
        applyEnc_lookup_mem _ _ _ _ _ hcats_nd hfc]
      unfold encOnce
      cases hlr : lookupAL row f with
      | some w =>
        cases hle : lookupEnc encs f with
        | some cl => rfl
        | none => exact hcat2 f hfc hle w hlr
      | none =>
        cases hle : lookupEnc encs f with
        | some cl => rfl
        | none => rfl
    · have hfnc : f ∉ b.categorical_cols := fun hcc => hdisj hcc hfn
      unfold singleDF
      rw [hLE,
        show lookupRow (applyEnc encodeCatSingle encs b.categorical_cols row) f
          = lookupAL (applyEnc encodeCatSingle encs b.categorical_cols row) f from rfl,
        applyEnc_lookup_not_mem _ _ _ _ _ hfnc]
      cases hlr : lookupAL row f with
      | some w => exact hnum f hfn w hlr
      | none => rfl
  obtain ⟨xs, hxs⟩ := mapM_option_isSome _ _ hall
  obtain ⟨hxslen, hxsget⟩ := mapM_option_getElem _ _ _ hxs
  obtain ⟨i, hilt, hieq⟩ := List.getElem_of_mem hcf
  have h2 : b.feature_cols[i]? = some c := by
    rw [List.getElem?_eq_getElem hilt, hieq]
  have hin : i < b.categorical_cols.length := by
    by_contra hge
    push_neg at hge
    have h1 : b.feature_cols[i]? = b.numerical_cols[i - b.categorical_cols.length]? := by
      rw [hshape, List.getElem?_append_right (by omega)]
    rw [h2] at h1
    have h3 : c ∈ b.numerical_cols := by
      obtain ⟨hlt2, he2⟩ := List.getElem?_eq_some.mp h1.symm
      exact he2 ▸ List.getElem_mem hlt2
    exact hdisj hc h3
  have hxsi : xs[i]? = some 0 := by
    rw [hxsget i, List.getElem?_map, h2, Option.map_some', hvalc]
    rfl
  have hxslen' : xs.length = b.feature_cols.length := by
    rw [hxslen, List.length_map]
  obtain ⟨ys, hys, hkeep⟩ := scaleSingle_ok_keep b xs i hshape hnd hscal hin
  have hprep : prepare_features b row = .ok ys := by
    unfold prepare_features
    rw [if_pos hload, hxs]
    dsimp only
    rw [hys]
  have hidxc : idxOf? c b.feature_cols = some i := idxOf?_of_getElem _ hnd i c h2
  refine ⟨ys, i, hprep, hidxc, by rw [hkeep, hxsi], fun proba => ?_⟩
  unfold predict
  rw [if_pos hload, hprep]

/-- A loaded bundle with an unknown-categorical row that also carries a
malformed numerical value. -/
def bundleUnk : Bundle :=
  { feature_cols := ["Contract", "tenure"], categorical_cols := ["Contract"]
    numerical_cols := ["tenure"]
    label_encoders := some [("Contract", ["Month-to-month"])]
    scaler := none, model_loaded := true }

def rowUnk : Row := [("Contract", .str "Two year"), ("tenure", .str "abc")]

/-- C4 counterexample: a row that does contain an unknown categorical value
still makes `prepare_features` raise — the unknown value is defaulted to 0,
but the universal "never raises" fails because of the unrelated
float-conversion error. -/
theorem unknown_categorical_counterexample :
    unknownFor ["Month-to-month"] (Val.str "Two year") ∧
    prepare_features bundleUnk rowUnk = .error PrepError.valueError := by
  constructor
  · show idxOf? "Two year" ["Month-to-month"] = none
    with_unfolding_all decide
  · with_unfolding_all decide

def rowUnkGood : Row := [("Contract", .str "Two year"), ("tenure", .num 7)]

/-- Witness for C4's amended statement: the unknown contract level is
encoded as 0 and prediction succeeds. -/
theorem unknown_categorical_defaults_witness :
    ∃ xs i, prepare_features bundleUnk rowUnkGood = .ok xs ∧
      idxOf? "Contract" bundleUnk.feature_cols = some i ∧ xs[i]? = some 0 ∧
      ∀ proba, predict bundleUnk proba rowUnkGood
        = .ok { churn_probability := round4Q (proba xs)
                risk_level := riskLevel (proba xs) } := by
  refine unknown_categorical_defaults bundleUnk rowUnkGood
    [("Contract", ["Month-to-month"])] "Contract" ["Month-to-month"]
    (Val.str "Two year") rfl rfl (by decide) rfl (by decide)
    (by with_unfolding_all rfl) (by with_unfolding_all rfl)
    ((by with_unfolding_all decide :
      idxOf? "Two year" ["Month-to-month"] = none) :
      unknownFor ["Month-to-month"] (Val.str "Two year")) ?_ ?_ ?_
  · intro f hf w hw
    have hf' : f = "tenure" := by
      rcases List.mem_cons.mp hf with h | h
      · exact h
      · cases h
    subst hf'
    have hw' : w = Val.num 7 := by
      rw [show lookupRow rowUnkGood "tenure" = some (Val.num 7)
        from by with_unfolding_all rfl] at hw
      injection hw with hw
      exact hw.symm
    subst hw'
    rfl
  · intro f hf hle w hw
    have hf' : f = "Contract" := by
      rcases List.mem_cons.mp hf with h | h
      · exact h
      · cases h
    subst hf'
    rw [show lookupEnc [("Contract", ["Month-to-month"])] "Contract"
      = some ["Month-to-month"] from by with_unfolding_all rfl] at hle
    cases hle
  · intro params hp
    cases hp
